import Mathlib

/-!
Verification of the duration parsing/formatting core of the `humanize`
repository (`src/duration.rs`).

Strings are modelled as lists of bytes (`List Nat`, each entry < 256),
matching the Rust code's `&[u8]` view of the input.  Machine integers are
modelled as `Nat`/`Int` with explicit `% 2^64` at the places where the
release-profile Rust arithmetic wraps.  The `f64` arithmetic used for
fractional parts is modelled exactly: a binary64 value is represented by
the rational number it denotes, and every operation rounds its exact
rational result to 53 bits with round-to-nearest, ties-to-even (`fround`),
exactly as IEEE 754 prescribes for the magnitudes that occur here
(no overflow to infinity and no subnormals are reachable: all values lie
well inside the normal range).
-/

set_option maxRecDepth 100000

/-- Error type of the duration parser, from `duration.rs` lines 15-21. -/
inductive Error where
  | BadInteger
  | InvalidDuration
  | MissingUnit
  | UnknownUnit
deriving DecidableEq, Repr

/-- Tests whether a byte is an ASCII digit (`b'0'..=b'9'`). -/
def isDigitB (c : Nat) : Bool := decide (48 ≤ c) && decide (c ≤ 57)

/-! ### Exact binary64 model

A (non-negative) binary64 value is represented exactly as a pair
`(m, e) : Nat x Int` denoting `m * 2^e`; a normalized non-zero value has
`2^52 <= m < 2^53` (a mantissa of `2^53` can appear transiently after a
round-up across a binade, which denotes the same real number).  Every
arithmetic operation computes the exact rational result and rounds it to
53 significant bits with round-to-nearest, ties-to-even, exactly as IEEE
754 binary64 arithmetic does for the magnitudes occurring in this parser
(all values are strictly inside the normal range, so neither overflow to
infinity nor subnormal rounding is reachable, and no value is negative).
-/

/-- Floor of `log2 n` for positive `n`, by repeated halving.  The fuel 128
bounds the number of halvings; all inputs in this development are below
`2^128`, so the fuel is never exhausted. -/
def natLog2Aux : Nat -> Nat -> Nat
  | 0, _ => 0
  | fuel + 1, n => if n <= 1 then 0 else natLog2Aux fuel (n / 2) + 1

/-- Integer base-2 logarithm used by the rounding routine. -/
def natLog2 (n : Nat) : Nat := natLog2Aux 128 n

/-- A non-negative binary64 value `m * 2^e`. -/
def F64 : Type := Nat × Int

/-- Quotient, remainder and divisor of `a / (b * 2^e)` (for `e < 0` the
factor `2^(-e)` multiplies the numerator instead). -/
def mantAt (a b : Nat) (e : Int) : Nat × Nat × Nat :=
  let n := a * 2 ^ (-e).toNat
  let d := b * 2 ^ e.toNat
  (n / d, n % d, d)

/-- Round the positive rational `a / b` to 53 significant bits,
round-to-nearest ties-to-even: choose the exponent `e` with
`2^52 <= a / (b * 2^e) < 2^53`, then round the quotient. -/
def roundPos (a b : Nat) : F64 :=
  let e0 : Int := (natLog2 a : Int) - (natLog2 b : Int) - 52
  let e := if (mantAt a b e0).1 < 2 ^ 52 then e0 - 1
           else if 2 ^ 53 <= (mantAt a b e0).1 then e0 + 1 else e0
  let t := mantAt a b e
  let m := if 2 * t.2.1 < t.2.2 then t.1
           else if t.2.2 < 2 * t.2.1 then t.1 + 1
           else if t.1 % 2 = 0 then t.1 else t.1 + 1
  (m, e)

/-- The `as f64` conversion of an unsigned integer (round to nearest even). -/
def natToF (n : Nat) : F64 := if n = 0 then ((0 : Nat), (0 : Int)) else roundPos n 1

/-- Binary64 multiplication of non-negative values: exact product, then one
rounding. -/
def fmul (x y : F64) : F64 :=
  if x.1 = 0 ∨ y.1 = 0 then ((0 : Nat), (0 : Int))
  else
    let r := roundPos (x.1 * y.1) 1
    (r.1, r.2 + x.2 + y.2)

/-- Binary64 division of non-negative values (divisor non-zero): exact
quotient, then one rounding. -/
def fdiv (x y : F64) : F64 :=
  if x.1 = 0 then ((0 : Nat), (0 : Int))
  else
    let r := roundPos x.1 y.1
    (r.1, r.2 + x.2 - y.2)

/-- The Rust `as u64` cast of a non-negative `f64`: truncate toward zero,
saturating at `u64::MAX`. -/
def f64ToU64 (x : F64) : Nat :=
  if 0 <= x.2 then min (2 ^ 64 - 1) (x.1 * 2 ^ x.2.toNat)
  else min (2 ^ 64 - 1) (x.1 / 2 ^ (-x.2).toNat)

/-! ### Machine-integer casts -/

/-- The `as i64` reinterpretation of a `u64` value (two's complement). -/
def toI64 (n : Nat) : Int := if n < 2 ^ 63 then (n : Int) else (n : Int) - 2 ^ 64

/-- Wrap an integer into the `i64` range, as two's-complement arithmetic does. -/
def wrapI64 (z : Int) : Int := (z + 2 ^ 63) % 2 ^ 64 - 2 ^ 63

/-- Release-profile `i64` negation (`-(x)`): wraps on `i64::MIN`. -/
def negI64 (x : Int) : Int := wrapI64 (-x)

/-! ### The scanners (`duration.rs` lines 38-95) -/

/-- Accumulator loop of `leading_int`: consume ASCII digits, multiplying the
accumulator by 10 and adding each digit.  The guard `x > u64::MAX / 10` is
checked before each step (source line 47); the multiply-add itself is
release-profile `u64` arithmetic, hence the explicit `% 2^64` (the addition
of the final digit can wrap when `x = u64::MAX / 10`, which the source does
not check). -/
def leadingIntAux (x : Nat) : List Nat → Except Error (Nat × List Nat)
  | [] => .ok (x, [])
  | c :: rest =>
    if isDigitB c then
      if (2 ^ 64 - 1) / 10 < x then .error .BadInteger
      else leadingIntAux ((10 * x + (c - 48)) % 2 ^ 64) rest
    else .ok (x, c :: rest)

/-- `leading_int` (`duration.rs` lines 39-58): consume the leading `[0-9]*`
run and return the accumulated `u64` value together with the rest of the
input. -/
def leading_int (s : List Nat) : Except Error (Nat × List Nat) :=
  leadingIntAux 0 s

/-- Accumulator loop of `leading_fraction` (`duration.rs` lines 63-95).
Once the `i64` accumulator would overflow (either the pre-check
`x > i64::MAX / 10`, or the wrapped sum turning negative, i.e. reaching
`2^63`), the numerator and scale freeze but digits keep being consumed. -/
def leadingFracAux (x : Nat) (scale : F64) (ovf : Bool) :
    List Nat → Nat × F64 × List Nat
  | [] => (x, scale, [])
  | c :: rest =>
    if isDigitB c then
      if ovf then leadingFracAux x scale true rest
      else if (2 ^ 63 - 1) / 10 < x then leadingFracAux x scale true rest
      else
        let y := 10 * x + (c - 48)
        if 2 ^ 63 ≤ y then leadingFracAux x scale true rest
        else leadingFracAux y (fmul scale (natToF 10)) false rest
    else (x, scale, c :: rest)

/-- `leading_fraction`: consume the digit run after a decimal point,
returning the (saturating) numerator, the `f64` scale `10^k`, and the rest
of the input.  It never fails. -/
def leading_fraction (s : List Nat) : Nat × F64 × List Nat :=
  leadingFracAux 0 (natToF 1) false s

/-! ### The unit table (`duration.rs` lines 180-194) -/

/-- Maps a unit token (as UTF-8 bytes) to its nanosecond multiplier;
unknown tokens map to 0.  `[194, 181]` is U+00B5 and `[206, 188]` is
U+03BC, the two micro signs. -/
def unitTable : List Nat → Nat
  | [110, 115] => 1
  | [117, 115] => 1000
  | [194, 181, 115] => 1000
  | [206, 188, 115] => 1000
  | [109, 115] => 1000000
  | [115] => 1000000000
  | [109] => 60000000000
  | [104] => 3600000000000
  | [100] => 86400000000000
  | [119] => 604800000000000
  | _ => 0

/-- Is `c` a byte the unit scanner keeps consuming (neither `.` nor a digit)?
Source lines 165-173. -/
def unitByteP (c : Nat) : Bool := !(c == 46 || isDigitB c)

/-! ### The term accumulator (`duration.rs` lines 107-227) -/

/-- One iteration of the `while !s.is_empty()` loop body of `parse`
(source lines 131-210, up to but not including `d += v`): scan the integer
part, the optional fraction, and the unit token, and return the term's
nanosecond value `v` together with the remaining input. -/
def stepTerm (s : List Nat) : Except Error (Nat × List Nat) :=
  match leading_int s with
  | .error e => .error e
  | .ok (l, s1) =>
    let pre := !(s.length == s1.length)
    let fr : Nat × F64 × List Nat × Bool :=
      match s1 with
      | c :: r =>
        if c = 46 then
          let t := leading_fraction r
          (t.1, t.2.1, t.2.2, !(r.length == t.2.2.length))
        else (0, natToF 1, s1, false)
      | [] => (0, natToF 1, s1, false)
    let f := fr.1
    let scale := fr.2.1
    let s2 := fr.2.2.1
    let post := fr.2.2.2
    if !pre && !post then .error .InvalidDuration
    else
      let u := s2.takeWhile unitByteP
      let s3 := s2.dropWhile unitByteP
      if u = [] then .error .MissingUnit
      else
        let unit := unitTable u
        if unit = 0 then .error .UnknownUnit
        else if 2 ^ 63 / unit < l then .error .InvalidDuration
        else
          let v := (l * unit) % 2 ^ 64
          if 0 < f then
            let add := f64ToU64 (fmul (natToF f) (fdiv (natToF unit) scale))
            if 2 ^ 64 - 1 < v + add then .error .InvalidDuration
            else .ok (v + add, s3)
          else .ok (v, s3)

/-- The `while !s.is_empty()` loop of `parse` (source lines 131-216),
accumulating the running `u64` total `d`.  The addition `d += v` is
release-profile wrapping arithmetic (`% 2^64`); the bound check
`d > 1 << 63` happens only afterwards, as in the source.  The loop
consumes at least one byte per iteration (a term always contains a
non-empty unit token), so the fuel `s.length + 1` supplied by `parse`
is never exhausted; the fuel-out branch is unreachable. -/
def parseLoop : Nat → Nat → List Nat → Except Error Nat
  | _, d, [] => .ok d
  | 0, _, _ => .error .InvalidDuration
  | fuel + 1, d, c :: cs =>
    if c = 46 ∨ isDigitB c then
      match stepTerm (c :: cs) with
      | .error e => .error e
      | .ok (v, s3) =>
        let d2 := (d + v) % 2 ^ 64
        if 2 ^ 63 < d2 then .error .InvalidDuration
        else parseLoop fuel d2 s3
    else .error .InvalidDuration

/-- Sign-independent tail of `parse` (source lines 122-226): special case
`"0"`, reject empty input, run the term loop over the sign-stripped input,
then either apply the `i64` negation (`-(d as i64)`, wrapping) for a
negative sign or enforce the final `d > (1 << 63) - 1` bound check. -/
def parseAfterSign (neg : Bool) (s : List Nat) : Except Error Int :=
  if s = [48] then .ok 0
  else if s = [] then .error .InvalidDuration
  else
    match parseLoop (s.length + 1) 0 s with
    | .error e => .error e
    | .ok d =>
      if neg then .ok (negI64 (toI64 d))
      else if 2 ^ 63 - 1 < d then .error .InvalidDuration
      else .ok (toI64 d)

/-- `parse` (`duration.rs` lines 107-227): strip an optional leading `-`
or `+` (source lines 113-120), then run the rest of the algorithm. -/
def parse (text : List Nat) : Except Error Int :=
  match text with
  | [] => parseAfterSign false []
  | c :: rest =>
    if c = 45 then parseAfterSign true rest
    else if c = 43 then parseAfterSign false rest
    else parseAfterSign false (c :: rest)

/-- `parse_duration` (`duration.rs` lines 101-105): run `parse` and store
the result as `Duration::from_nanos(d as u64)`.  A `Duration` is modelled
by its nanosecond count (a `u64`, hence the `% 2^64` reinterpretation of
the signed value). -/
def parse_duration (text : List Nat) : Except Error Nat :=
  match parse text with
  | .error e => .error e
  | .ok d => .ok ((d % 2 ^ 64).toNat)

/-! ### The formatter (`duration.rs` lines 237-378) -/

/-- Digit loop of `fmt_frac` (source lines 343-352): emit `prec` digits of
`v` from the least significant end, skipping trailing zeros until the
first non-zero digit (`print` flag), then prepend the decimal point if
anything was printed. -/
def fmtFracAux : Nat → Nat → Bool → List Nat → List Nat × Nat
  | v, 0, pr, acc => (if pr then 46 :: acc else acc, v)
  | v, prec + 1, pr, acc =>
    let digit := v % 10
    let pr2 := pr || decide (digit ≠ 0)
    fmtFracAux (v / 10) prec pr2 (if pr2 then (48 + digit) :: acc else acc)

/-- `fmt_frac` (source lines 339-360): format the fraction `v / 10^prec`,
omitting trailing zeros and the decimal point when the fraction is zero;
also return `v / 10^prec`. -/
def fmt_frac (v : Nat) (prec : Nat) : List Nat × Nat :=
  fmtFracAux v prec false []

/-- Digit loop of `fmt_int` (source lines 370-374), emitting the decimal
digits of a non-zero `v`.  The fuel 32 mirrors the 32-byte buffer; a `u64`
has at most 20 digits, so it is never exhausted. -/
def fmtIntAux : Nat → Nat → List Nat → List Nat
  | 0, _, acc => acc
  | fuel + 1, v, acc =>
    if v = 0 then acc else fmtIntAux fuel (v / 10) ((48 + v % 10) :: acc)

/-- `fmt_int` (source lines 364-378): format `v` in decimal. -/
def fmt_int (v : Nat) : List Nat :=
  if v = 0 then [48] else fmtIntAux 32 v []

/-- `to_string` (`duration.rs` lines 237-333).  Note that the magnitude
formatted is `d as u64` (source line 243): the source never negates the
value for negative inputs, so a negative `d` is formatted from its
two's-complement bit pattern `2^64 + d`, and the `-` sign is prepended at
the end (source lines 327-330).  The zero duration returns `"0s"` early. -/
def to_string (d : Int) : List Nat :=
  let neg := d < 0
  let u := (d % 2 ^ 64).toNat
  if u < 1000000000 then
    if u = 0 then [48, 115]
    else
      let up : Nat × Nat :=
        if u < 1000 then (110, 0)
        else if u < 1000000 then (117, 3)
        else (109, 6)
      let fb := fmt_frac u up.2
      let core := fmt_int fb.2 ++ fb.1 ++ [up.1, 115]
      if neg then 45 :: core else core
  else
    let sp : List Nat × Nat :=
      if u % 1000000000 ≠ 0 then
        let fb := fmt_frac u 9
        (fmt_int (fb.2 % 60) ++ fb.1 ++ [115], fb.2)
      else
        let u1 := u / 1000000000
        (if u1 % 60 ≠ 0 then fmt_int (u1 % 60) ++ [115] else [], u1)
    let u3 := sp.2 / 60
    let core :=
      if 0 < u3 then
        let minPart := if u3 % 60 ≠ 0 then fmt_int (u3 % 60) ++ [109] else []
        let u4 := u3 / 60
        let hrPart := if 0 < u4 then fmt_int u4 ++ [104] else []
        hrPart ++ minPart ++ sp.1
      else sp.1
    if neg then 45 :: core else core







/-! ### Helper lemmas -/

/-- Unfolding lemma: the term loop on an empty input returns the total. -/
theorem parseLoop_nil (fuel d : Nat) : parseLoop fuel d [] = .ok d := by
  cases fuel <;> rfl

/-- Unfolding lemma: one iteration of the term loop. -/
theorem parseLoop_succ (fuel d c : Nat) (cs : List Nat) :
    parseLoop (fuel + 1) d (c :: cs) =
      if c = 46 ∨ isDigitB c then
        match stepTerm (c :: cs) with
        | .error e => .error e
        | .ok (v, s3) =>
          if 2 ^ 63 < (d + v) % 2 ^ 64 then .error .InvalidDuration
          else parseLoop fuel ((d + v) % 2 ^ 64) s3
      else .error .InvalidDuration := rfl

/-- Unfolding lemma: the integer scanner stops at a non-digit. -/
theorem leadingIntAux_nondigit (x c : Nat) (rest : List Nat)
    (h : isDigitB c = false) : leadingIntAux x (c :: rest) = .ok (x, c :: rest) := by
  simp [leadingIntAux, h]

/-- Unfolding lemma: one digit step of `fmt_int`. -/
theorem fmtIntAux_succ (fuel v : Nat) (acc : List Nat) :
    fmtIntAux (fuel + 1) v acc =
      if v = 0 then acc else fmtIntAux fuel (v / 10) ((48 + v % 10) :: acc) := rfl

/-- Formatting zero leaves the accumulator untouched, whatever the fuel. -/
theorem fmtIntAux_zero (fuel : Nat) (acc : List Nat) : fmtIntAux fuel 0 acc = acc := by
  cases fuel <;> rfl

/-- Every byte emitted by the digit loop of `fmt_int` is an ASCII digit or
comes from the initial accumulator. -/
theorem fmtIntAux_mem (fuel : Nat) :
    ∀ (v : Nat) (acc : List Nat) (b : Nat), b ∈ fmtIntAux fuel v acc →
      (48 ≤ b ∧ b ≤ 57) ∨ b ∈ acc := by
  induction fuel with
  | zero => intro v acc b hb; exact Or.inr hb
  | succ fuel ih =>
    intro v acc b hb
    rw [fmtIntAux_succ] at hb
    by_cases hv : v = 0
    · rw [if_pos hv] at hb; exact Or.inr hb
    · rw [if_neg hv] at hb
      rcases ih (v / 10) ((48 + v % 10) :: acc) b hb with h | h
      · exact Or.inl h
      · rcases List.mem_cons.mp h with h | h
        · subst h; have := Nat.mod_lt v (show 0 < 10 by norm_num); omega
        · exact Or.inr h

/-- The digit loop of `fmt_int` never shortens the accumulator. -/
theorem fmtIntAux_length (fuel : Nat) :
    ∀ (v : Nat) (acc : List Nat), acc.length ≤ (fmtIntAux fuel v acc).length := by
  induction fuel with
  | zero => intro v acc; exact Nat.le_refl _
  | succ fuel ih =>
    intro v acc
    rw [fmtIntAux_succ]
    by_cases hv : v = 0
    · rw [if_pos hv]
    · rw [if_neg hv]
      calc acc.length ≤ ((48 + v % 10) :: acc).length := by simp
        _ ≤ _ := ih (v / 10) ((48 + v % 10) :: acc)

/-- Output of `fmt_int` is a non-empty string of ASCII digits. -/
theorem fmt_int_shape (v : Nat) :
    ∃ hd tl, fmt_int v = hd :: tl ∧ 48 ≤ hd ∧ hd ≤ 57 := by
  by_cases hv : v = 0
  · exact ⟨48, [], by simp [fmt_int, hv], by norm_num, by norm_num⟩
  · have hlen : 1 ≤ (fmt_int v).length := by
      have h1 : fmt_int v = fmtIntAux 31 (v / 10) [48 + v % 10] := by
        rw [fmt_int, if_neg hv, show (32 : Nat) = 31 + 1 from rfl, fmtIntAux_succ,
          if_neg hv]
      rw [h1]
      have := fmtIntAux_length 31 (v / 10) [48 + v % 10]
      simpa using this
    rcases hfi : fmt_int v with _ | ⟨hd, tl⟩
    · rw [hfi] at hlen; simp at hlen
    · refine ⟨hd, tl, rfl, ?_⟩
      have hmem : hd ∈ fmt_int v := by rw [hfi]; exact List.mem_cons_self _ _
      rw [fmt_int, if_neg hv] at hmem
      rcases fmtIntAux_mem 32 v [] hd hmem with h | h
      · exact h
      · simp at h

/-- Reading back the digits produced by `fmt_int`'s loop: scanning
`fmtIntAux fuel n acc ++ rest` from accumulator 0 is the same as scanning
`acc ++ rest` from accumulator `n`, provided `n` fits in a `u64` (so no
guard fires and no wrap occurs) and the fuel covers all digits of `n`. -/
theorem leadInt_fmtInt (n : Nat) (h64 : n < 2 ^ 64) :
    ∀ fuel : Nat, n < 10 ^ fuel → ∀ acc rest : List Nat,
      leadingIntAux 0 (fmtIntAux fuel n acc ++ rest) = leadingIntAux n (acc ++ rest) := by
  induction n using Nat.strong_induction_on with
  | _ n ih =>
    intro fuel hfuel acc rest
    by_cases hn : n = 0
    · subst hn; rw [fmtIntAux_zero]
    · cases fuel with
      | zero => simp at hfuel; omega
      | succ fuel =>
        rw [fmtIntAux_succ, if_neg hn]
        have hdiv : n / 10 < n := Nat.div_lt_self (Nat.pos_of_ne_zero hn) (by norm_num)
        have hf : n / 10 < 10 ^ fuel := by
          apply Nat.div_lt_of_lt_mul
          rw [Nat.mul_comm, ← pow_succ]
          exact hfuel
        rw [ih (n / 10) hdiv (lt_trans hdiv h64) fuel hf ((48 + n % 10) :: acc) rest]
        have hd : isDigitB (48 + n % 10) = true := by
          have := Nat.mod_lt n (show 0 < 10 by norm_num)
          simp [isDigitB]; omega
        show leadingIntAux (n / 10) ((48 + n % 10) :: (acc ++ rest)) = _
        rw [leadingIntAux]
        rw [if_pos hd, if_neg (by
          have : n / 10 ≤ (2 ^ 64 - 1) / 10 := Nat.div_le_div_right (by omega)
          omega)]
        congr 1
        have h1 : 10 * (n / 10) + (48 + n % 10 - 48) = n := by omega
        rw [h1, Nat.mod_eq_of_lt h64]

/-- The fraction scanner always leaves the cursor exactly past the maximal
leading digit run, for every accumulator, scale and overflow flag. -/
theorem leadingFracAux_rest (s : List Nat) :
    ∀ (x : Nat) (sc : F64) (ovf : Bool),
      (leadingFracAux x sc ovf s).2.2 = s.dropWhile isDigitB := by
  induction s with
  | nil => intro x sc ovf; rfl
  | cons c rest ih =>
    intro x sc ovf
    cases hc : isDigitB c with
    | false => simp [leadingFracAux, hc, List.dropWhile]
    | true =>
      rw [leadingFracAux, if_pos hc]
      have hdw : List.dropWhile isDigitB (c :: rest) = List.dropWhile isDigitB rest := by
        simp [List.dropWhile_cons, hc]
      rw [hdw]
      split
      · exact ih _ _ _
      · split
        · exact ih _ _ _
        · dsimp only
          split
          · exact ih _ _ _
          · exact ih _ _ _

/-- Every successful run of the post-sign phase yields at least `i64::MIN`. -/
theorem parseAfterSign_lb (neg : Bool) (s : List Nat) (d : Int)
    (h : parseAfterSign neg s = .ok d) : -(2 ^ 63) ≤ d := by
  have hneg : ∀ z : Int, -(2 ^ 63) ≤ negI64 z := by
    intro z
    rw [negI64, wrapI64]
    have := Int.emod_nonneg (-z + 2 ^ 63) (show (2 ^ 64 : Int) ≠ 0 by norm_num)
    omega
  rw [parseAfterSign] at h
  by_cases h1 : s = [48]
  · rw [if_pos h1] at h; simp at h; omega
  · rw [if_neg h1] at h
    by_cases h2 : s = []
    · rw [if_pos h2] at h; simp at h
    · rw [if_neg h2] at h
      split at h
      · simp at h
      · rename_i dd heq
        by_cases hn : neg = true
        · rw [if_pos hn] at h
          simp at h
          rw [← h]
          apply hneg
        · rw [if_neg hn] at h
          by_cases hb : 2 ^ 63 - 1 < dd
          · rw [if_pos hb] at h; simp at h
          · rw [if_neg hb] at h
            simp at h
            rw [← h, toI64]
            split <;> omega

/-- Every successful parse yields a value of at least `i64::MIN`. -/
theorem parse_ok_lb (s : List Nat) (d : Int) (h : parse s = .ok d) :
    -(2 ^ 63) ≤ d := by
  rcases s with _ | ⟨c, rest⟩
  · exact parseAfterSign_lb false [] d h
  · rw [parse] at h
    split_ifs at h <;> exact parseAfterSign_lb _ _ d h

/-! ### Claim theorems -/

/-- C1: the claim asserts `parse (to_string d) = .ok d` for every signed
64-bit `d`.  This fails for `d = -1`: `to_string` formats the
two's-complement magnitude `2^64 - 1` (it never takes the absolute value),
producing `"-5124095h34m33.709551615s"`, whose magnitude exceeds `2^63`,
so re-parsing fails with `InvalidDuration` instead of returning `-1`. -/
theorem parse_to_string_neg_one :
    parse (to_string (-1)) = .error .InvalidDuration := by rfl

/-- C2: the claim asserts that a negative duration is formatted as `-`
followed by the formatting of its absolute value.  For `d = -1` the code
instead formats the two's-complement bit pattern `2^64 - 1`, yielding
`"-5124095h34m33.709551615s"` and not `"-" ++ to_string 1 = "-1ns"`. -/
theorem to_string_neg_one_shape :
    to_string (-1) = [45, 53, 49, 50, 52, 48, 57, 53, 104, 51, 52, 109,
      51, 51, 46, 55, 48, 57, 53, 53, 49, 54, 49, 53, 115]
    ∧ to_string (-1) ≠ 45 :: to_string 1 := ⟨by rfl, by decide⟩

/-- C3: the claim asserts no internal arithmetic step can trap on
overflow.  On `"-9223372036854775808ns"` the unsigned total reaches
exactly `2^63` (first conjunct), so the final `-(d as i64)` negates
`i64::MIN`, which overflows `i64` (it panics under debug assertions; in
release builds it wraps back to `i64::MIN = -9223372036854775808`, the
value shown in the second conjunct). -/
theorem parse_min_negation_overflow :
    parseLoop 22 0 [57, 50, 50, 51, 51, 55, 50, 48, 51, 54, 56, 53, 52,
        55, 55, 53, 56, 48, 56, 110, 115] = .ok 9223372036854775808
    ∧ parse [45, 57, 50, 50, 51, 51, 55, 50, 48, 51, 54, 56, 53, 52, 55,
        55, 53, 56, 48, 56, 110, 115] = .ok (-9223372036854775808) :=
  ⟨by rfl, by rfl⟩

/-- C4: the claim asserts the running total never silently wraps modulo
`2^64`.  On `"9223372036854775808ns9223372036854775808ns"` each term
contributes `2^63`; the unchecked `d += v` wraps `2^63 + 2^63 = 2^64` to
`0` (panicking under debug assertions), and the subsequent `d > 1 << 63`
check sees `0`, so parsing silently succeeds with total `0`. -/
theorem parse_running_total_wraps :
    parse [57, 50, 50, 51, 51, 55, 50, 48, 51, 54, 56, 53, 52, 55, 55,
      53, 56, 48, 56, 110, 115, 57, 50, 50, 51, 51, 55, 50, 48, 51, 54,
      56, 53, 52, 55, 55, 53, 56, 48, 56, 110, 115] = .ok 0 := by rfl

/-- C5: the claim asserts `leading_int` fails with `BadInteger` exactly
when the accumulated value would exceed `u64::MAX`.  On the 20-digit input
`"18446744073709551616"` (the value `2^64`) the guard `x > u64::MAX / 10`
does not fire (the accumulator after 19 digits equals `u64::MAX / 10`),
and the unchecked `+ digit` wraps to `0` (panicking under debug
assertions), so the scanner returns `0` instead of failing.  The second
conjunct shows the guard itself does fire on the repository's own
21-nines test input. -/
theorem leading_int_add_step_wraps :
    leading_int [49, 56, 52, 52, 54, 55, 52, 52, 48, 55, 51, 55, 48, 57,
      53, 53, 49, 54, 49, 54] = .ok (0, [])
    ∧ leading_int (List.replicate 21 57) = .error .BadInteger :=
  ⟨by rfl, by rfl⟩

/-- C6: `parse_duration` stores the signed parse result via
`Duration::from_nanos(d as u64)`: whenever the internal parser accepts an
input with a negative value `d`, `parse_duration` succeeds and returns the
two's-complement-wrapped unsigned duration of `2^64 + d` nanoseconds. -/
theorem parse_duration_neg_twos_complement (s : List Nat) (d : Int)
    (h : parse s = .ok d) (hd : d < 0) :
    parse_duration s = .ok (d + 2 ^ 64).toNat := by
  have hlb := parse_ok_lb s d h
  simp only [parse_duration, h]
  congr 1
  omega

/-- Witness for C6 at the input `"-5s"`: the parser returns
`-5000000000` and `parse_duration` returns `2^64 - 5000000000`. -/
theorem parse_duration_neg_twos_complement_witness :
    parse [45, 53, 115] = .ok (-5000000000)
    ∧ parse_duration [45, 53, 115] = .ok ((-5000000000 + 2 ^ 64 : Int)).toNat :=
  ⟨by rfl,
    parse_duration_neg_twos_complement [45, 53, 115] (-5000000000) (by rfl)
      (by norm_num)⟩

/-- C8: malformed input rejection: `parse ""` and `parse ".s"` fail with
`InvalidDuration`, `parse "5"` (digits, then end of input) fails with
`MissingUnit`, and `parse "5x"` fails with `UnknownUnit`. -/
theorem parse_malformed_rejection :
    parse [] = .error .InvalidDuration
    ∧ parse [46, 115] = .error .InvalidDuration
    ∧ parse [53] = .error .MissingUnit
    ∧ parse [53, 120] = .error .UnknownUnit :=
  ⟨by rfl, by rfl, by rfl, by rfl⟩

/-- C9: the fraction scanner never fails: its cursor always advances past
the whole digit run no matter what (first conjunct); on twenty `'3'`
digits the accumulator freezes after 19 digits at `3333333333333333333`
with scale `4882812500000000 * 2^11 = 10^19` while still consuming the
20th digit (second and third conjuncts); and the 19-fractional-digit input
`"0.3333333333333333333h"` parses to exactly 20 minutes, i.e.
1200000000000 ns (fourth conjunct). -/
theorem leading_fraction_saturates :
    (∀ s : List Nat, (leading_fraction s).2.2 = s.dropWhile isDigitB)
    ∧ leading_fraction (List.replicate 20 51) =
        (3333333333333333333, (4882812500000000, 11), [])
    ∧ (4882812500000000 : Nat) * 2 ^ 11 = 10 ^ 19
    ∧ parse [48, 46, 51, 51, 51, 51, 51, 51, 51, 51, 51, 51, 51, 51, 51,
        51, 51, 51, 51, 51, 51, 104] = .ok 1200000000000 :=
  ⟨fun s => leadingFracAux_rest s 0 (natToF 1) false, by rfl, by norm_num, by rfl⟩

/-- C10: the three spellings of the microsecond unit are interchangeable:
`"12µs"` (U+00B5), `"12μs"` (U+03BC) and `"12us"` all parse to 12000 ns. -/
theorem parse_micro_unit_equivalence :
    parse [49, 50, 194, 181, 115] = .ok 12000
    ∧ parse [49, 50, 206, 188, 115] = .ok 12000
    ∧ parse [49, 50, 117, 115] = .ok 12000 :=
  ⟨by rfl, by rfl, by rfl⟩

/-- C7 counterexample: a non-negative input whose true nanosecond total is
`2^64 + 1 > 2^63 - 1` (two `2^63`-valued terms and one `1ns` term) is
accepted with value `1`, because the running total wraps modulo `2^64`. -/
theorem parse_overflow_multi_term_accepted :
    parse [57, 50, 50, 51, 51, 55, 50, 48, 51, 54, 56, 53, 52, 55, 55,
      53, 56, 48, 56, 110, 115, 57, 50, 50, 51, 51, 55, 50, 48, 51, 54,
      56, 53, 52, 55, 55, 53, 56, 48, 56, 110, 115, 49, 110, 115] = .ok 1 := by rfl

set_option maxHeartbeats 2000000 in
/-- C7 (amended): `parse "9223372036854775807ns"` succeeds with the
maximum value `2^63 - 1`; `parse "9223372036854775808ns"` fails with
`InvalidDuration`; and every single-term input `<decimal digits>ns` whose
value lies in `[2^63, 2^64)` fails with `InvalidDuration` (multi-term
inputs can instead wrap the `u64` accumulator and be accepted). -/
theorem parse_overflow_boundary :
    parse [57, 50, 50, 51, 51, 55, 50, 48, 51, 54, 56, 53, 52, 55, 55,
        53, 56, 48, 55, 110, 115] = .ok 9223372036854775807
    ∧ parse [57, 50, 50, 51, 51, 55, 50, 48, 51, 54, 56, 53, 52, 55, 55,
        53, 56, 48, 56, 110, 115] = .error .InvalidDuration
    ∧ ∀ n : Nat, 2 ^ 63 ≤ n → n < 2 ^ 64 →
        parse (fmt_int n ++ [110, 115]) = .error .InvalidDuration := by
  refine ⟨by rfl, by rfl, ?_⟩
  intro n hge hlt
  have hn0 : n ≠ 0 := by rintro rfl; norm_num at hge
  obtain ⟨hd, tl, hfi, h48, h57⟩ := fmt_int_shape n
  have hfmt : fmt_int n = fmtIntAux 32 n [] := by rw [fmt_int, if_neg hn0]
  have hkey : leading_int (fmt_int n ++ [110, 115]) = .ok (n, [110, 115]) := by
    rw [leading_int, hfmt]
    rw [leadInt_fmtInt n hlt 32 (lt_trans hlt (by norm_num)) [] [110, 115]]
    rw [List.nil_append]
    exact leadingIntAux_nondigit n 110 [115] (by decide)
  have hlen : (fmt_int n ++ [110, 115]).length = tl.length + 3 := by
    rw [hfi]; simp
  have hb : ((fmt_int n ++ [110, 115]).length == ([110, 115] : List Nat).length) = false := by
    rw [hlen]; simp
  have hstep : stepTerm (fmt_int n ++ [110, 115]) =
      if 2 ^ 63 < n then .error .InvalidDuration else .ok ((n * 1) % 2 ^ 64, []) := by
    have ht : List.takeWhile unitByteP ([110, 115] : List Nat) = [110, 115] := rfl
    have hdw : List.dropWhile unitByteP ([110, 115] : List Nat) = ([] : List Nat) := rfl
    have hut : unitTable [110, 115] = 1 := rfl
    simp only [stepTerm, hkey, hb, ht, hdw, hut]
    norm_num [show unitByteP 110 = true from rfl, ht, hdw, hut]
    intro hcon
    exact absurd hcon (by decide)
  have hdig : isDigitB hd = true := by simp [isDigitB]; omega
  rw [hfi, List.cons_append]
  simp only [parse]
  rw [if_neg (by omega : ¬hd = 45), if_neg (by omega : ¬hd = 43)]
  rw [parseAfterSign]
  rw [if_neg (by simp), if_neg (by simp)]
  simp only [List.length_cons]
  rw [parseLoop_succ]
  rw [if_pos (Or.inr hdig)]
  rw [← List.cons_append, ← hfi, hstep]
  by_cases hgt : 2 ^ 63 < n
  · rw [if_pos hgt]
  · rw [if_neg hgt]
    have hv : (n * 1) % 2 ^ 64 = n := by
      rw [Nat.mul_one, Nat.mod_eq_of_lt hlt]
    rw [hv]
    have hd2 : (0 + n) % 2 ^ 64 = n := by
      rw [Nat.zero_add, Nat.mod_eq_of_lt hlt]
    simp only [hd2]
    rw [if_neg hgt, parseLoop_nil]
    have hfin : 2 ^ 63 - 1 < n := by omega
    simp only [Bool.false_eq_true, if_false, if_pos hfin]

/-- Witness for C7's universal clause at `n = 2^63`: the decimal rendering
of `2^63` followed by `"ns"` is rejected with `InvalidDuration`. -/
theorem parse_overflow_boundary_witness :
    parse (fmt_int (2 ^ 63) ++ [110, 115]) = .error .InvalidDuration :=
  parse_overflow_boundary.2.2 (2 ^ 63) (by norm_num) (by norm_num)
